import Mathlib

/-
Verification of the python-furaffinity client library.

Strings from the Python code are embedded as `List Char`; file contents as
`List Nat` (byte lists); the filesystem as an association list from paths to
contents; network fetches as an `Option` input (none models a connection
error). Each definition is a direct translation of the corresponding
function in the repository's source.
-/

/-- Whitespace characters recognised by Python's str.strip and str.split
(the ASCII whitespace set). -/
def pyIsSpace (c : Char) : Bool :=
  c = ' ' || c = '\t' || c = '\n' || c = '\x0b' || c = '\x0c' || c = '\r'

/-- Characters kept by the safe mode of misc.clean, i.e. the class
[0-9a-zA-Z-.,_ ] of the regular expression whose complement is deleted. -/
def isSafeChar (c : Char) : Bool :=
  ('0' ≤ c && c ≤ '9') || ('a' ≤ c && c ≤ 'z') || ('A' ≤ c && c ≤ 'Z') ||
    c = '-' || c = '.' || c = ',' || c = '_' || c = ' '

/-- Python str.strip: drop whitespace from both ends. -/
def pyStrip (l : List Char) : List Char :=
  ((l.dropWhile pyIsSpace).reverse.dropWhile pyIsSpace).reverse

/-- Helper for pySplit: walk the characters with an accumulator holding the
current (reversed) token. -/
def splitAux : List Char → List Char → List (List Char)
  | [], acc => if acc.isEmpty then [] else [acc.reverse]
  | c :: cs, acc =>
    if pyIsSpace c then
      if acc.isEmpty then splitAux cs [] else acc.reverse :: splitAux cs []
    else splitAux cs (c :: acc)

/-- Python str.split with no argument: split on runs of whitespace,
discarding empty tokens. -/
def pySplit (l : List Char) : List (List Char) := splitAux l []

/-- Python separator.join over a list of tokens. -/
def joinSep (sep : List Char) : List (List Char) → List Char
  | [] => []
  | [t] => t
  | t :: ts => t ++ sep ++ joinSep sep ts

/-- misc.clean(text, safe, separator): when safe, delete every character
outside the allowed class, then strip, split on whitespace and rejoin the
tokens with the separator. -/
def clean (text : List Char) (safe : Bool) (separator : List Char) : List Char :=
  let text := if safe then text.filter isSafeChar else text
  joinSep separator (pySplit (pyStrip text))

/-- Python substring containment (the `in` operator on strings). -/
def pyIn (needle hay : List Char) : Bool :=
  (List.range (hay.length + 1)).any (fun i => needle.isPrefixOf (hay.drop i))

/-- Typed errors raised by FASubmission.check_errors. -/
inductive PageError
  | submissionNotFound
  | ipBanned
  | maturityRestricted
  | accessDenied
  deriving DecidableEq

/-- A fetched page: the text of its title element (soup.title.string) and
its full textual serialization (str(soup)). -/
structure Page where
  title : List Char
  body : List Char

/-- Title marker for a missing submission. -/
def sysErrorTitle : List Char := "System Error".data

/-- Body marker for an IP ban. -/
def ipBanMarker : List Char := "Your IP address has been banned.".data

/-- Body marker for the maturity gate. -/
def maturityMarker : List Char := "This submission contains Mature or Adult content".data

/-- Body marker for denied access. -/
def accessMarker : List Char := "You are not allowed to view this image".data

/-- FASubmission.check_errors: ordered signature checks over the fetched
page, returning the first matching typed error, none when no marker
matches. -/
def check_errors (p : Page) : Option PageError :=
  if p.title = sysErrorTitle then some PageError.submissionNotFound
  else if pyIn ipBanMarker p.body then some PageError.ipBanned
  else if pyIn maturityMarker p.body then some PageError.maturityRestricted
  else if pyIn accessMarker p.body then some PageError.accessDenied
  else none

/-- C1: check_errors raises exactly the first matching error in the fixed
priority order (System Error title, then IP-ban marker, then maturity
marker, then access-denied marker) and raises nothing when no marker
matches; in particular a page titled "System Error" raises
SubmissionNotFound regardless of the body. -/
theorem check_errors_priority (p : Page) :
    (check_errors p = some PageError.submissionNotFound ↔ p.title = sysErrorTitle)
    ∧ (check_errors p = some PageError.ipBanned ↔
        p.title ≠ sysErrorTitle ∧ pyIn ipBanMarker p.body = true)
    ∧ (check_errors p = some PageError.maturityRestricted ↔
        p.title ≠ sysErrorTitle ∧ pyIn ipBanMarker p.body = false
          ∧ pyIn maturityMarker p.body = true)
    ∧ (check_errors p = some PageError.accessDenied ↔
        p.title ≠ sysErrorTitle ∧ pyIn ipBanMarker p.body = false
          ∧ pyIn maturityMarker p.body = false ∧ pyIn accessMarker p.body = true)
    ∧ (check_errors p = none ↔
        p.title ≠ sysErrorTitle ∧ pyIn ipBanMarker p.body = false
          ∧ pyIn maturityMarker p.body = false ∧ pyIn accessMarker p.body = false) := by
  unfold check_errors
  split_ifs with h1 h2 h3 h4 <;> simp_all

/-- Two adjacent characters are acceptable when at least one of them is not
whitespace (so no run of two consecutive whitespace characters occurs). -/
def noAdjSpaces (a b : Char) : Prop := pyIsSpace a = false ∨ pyIsSpace b = false

/-- Every token produced by splitAux is nonempty and free of whitespace,
provided the pending accumulator is free of whitespace. -/
theorem splitAux_tokens : ∀ (l acc : List Char), (∀ c ∈ acc, pyIsSpace c = false) →
    ∀ t ∈ splitAux l acc, t ≠ [] ∧ ∀ c ∈ t, pyIsSpace c = false := by
  intro l
  induction l with
  | nil =>
    intro acc hacc t ht
    simp only [splitAux] at ht
    by_cases h : acc.isEmpty
    · simp [h] at ht
    · simp [h] at ht
      subst ht
      refine ⟨?_, ?_⟩
      · simp only [List.isEmpty_iff] at h
        simpa using h
      · intro c hc
        exact hacc c (List.mem_reverse.mp hc)
  | cons a as ih =>
    intro acc hacc t ht
    simp only [splitAux] at ht
    by_cases hsp : pyIsSpace a = true
    · simp only [hsp, if_true] at ht
      by_cases hemp : acc.isEmpty
      · simp [hemp] at ht
        exact ih [] (by simp) t ht
      · simp [hemp] at ht
        rcases ht with rfl | ht
        · refine ⟨?_, ?_⟩
          · simp only [List.isEmpty_iff] at hemp
            simpa using hemp
          · intro c hc
            exact hacc c (List.mem_reverse.mp hc)
        · exact ih [] (by simp) t ht
    · simp only [hsp, if_false] at ht
      refine ih (a :: acc) ?_ t ht
      intro c hc
      rcases List.mem_cons.mp hc with rfl | hc
      · simpa using hsp
      · exact hacc c hc

/-- A whitespace-free character list trivially has no two adjacent
whitespace characters. -/
theorem chain'_of_nonspace : ∀ (l : List Char), (∀ c ∈ l, pyIsSpace c = false) →
    List.Chain' noAdjSpaces l := by
  intro l
  induction l with
  | nil => intro _; simp
  | cons a as ih =>
    intro h
    cases as with
    | nil => exact List.chain'_singleton a
    | cons b bs =>
      rw [List.chain'_cons]
      refine ⟨Or.inl (h a (by simp)), ih ?_⟩
      intro c hc
      exact h c (by simp [hc])

/-- Membership extraction from getLast?. -/
theorem mem_of_getLast?Eq {α : Type} (l : List α) (c : α) (h : l.getLast? = some c) : c ∈ l := by
  obtain ⟨hne, rfl⟩ := List.mem_getLast?_eq_getLast h
  exact List.getLast_mem hne

/-- Option.all fact for the head of a whitespace-free list. -/
theorem all_head? (l : List Char) (h : ∀ c ∈ l, pyIsSpace c = false) :
    Option.all (fun c => !pyIsSpace c) l.head? = true := by
  cases l with
  | nil => rfl
  | cons a as => simpa using h a (by simp)

/-- Option.all fact for the last element of a whitespace-free list. -/
theorem all_getLast? (l : List Char) (h : ∀ c ∈ l, pyIsSpace c = false) :
    Option.all (fun c => !pyIsSpace c) l.getLast? = true := by
  match hl : l.getLast? with
  | none => rfl
  | some c => simpa using h c (mem_of_getLast?Eq l c hl)

/-- joinSep over nonempty tokens with a nonempty token list is nonempty. -/
theorem joinSep_ne_nil (ts : List (List Char)) (hne : ts ≠ [])
    (h : ∀ t ∈ ts, t ≠ []) : joinSep [' '] ts ≠ [] := by
  cases ts with
  | nil => exact absurd rfl hne
  | cons t ts =>
    cases ts with
    | nil => simpa [joinSep] using h t (by simp)
    | cons u us => simp [joinSep]

/-- Joining nonempty whitespace-free tokens with a single space yields a
string with no two adjacent whitespace characters and whitespace-free ends. -/
theorem joinSep_good : ∀ (ts : List (List Char)),
    (∀ t ∈ ts, t ≠ [] ∧ ∀ c ∈ t, pyIsSpace c = false) →
    List.Chain' noAdjSpaces (joinSep [' '] ts)
    ∧ Option.all (fun c => !pyIsSpace c) (joinSep [' '] ts).head? = true
    ∧ Option.all (fun c => !pyIsSpace c) (joinSep [' '] ts).getLast? = true := by
  intro ts
  induction ts with
  | nil => intro _; exact ⟨by simp [joinSep], rfl, rfl⟩
  | cons t ts ih =>
    intro h
    obtain ⟨htne, htns⟩ := h t (by simp)
    cases ts with
    | nil =>
      exact ⟨chain'_of_nonspace t htns, all_head? t htns, all_getLast? t htns⟩
    | cons u us =>
      obtain ⟨hc, hh, hl⟩ := ih (fun t ht => h t (by simp [ht]))
      have hrest : joinSep [' '] (u :: us) ≠ [] :=
        joinSep_ne_nil (u :: us) (by simp) (fun t ht => (h t (by simp [ht])).1)
      have hshape : joinSep [' '] (t :: u :: us) = t ++ (' ' :: joinSep [' '] (u :: us)) := by
        simp [joinSep]
      refine ⟨?_, ?_, ?_⟩
      · rw [hshape, List.chain'_append]
        refine ⟨chain'_of_nonspace t htns, ?_, ?_⟩
        · rw [List.chain'_cons']
          refine ⟨?_, hc⟩
          intro y hy
          right
          match hy2 : (joinSep [' '] (u :: us)).head? with
          | none => simp [hy2] at hy
          | some z =>
            simp [hy2] at hy
            subst hy
            simpa [hy2] using hh
        · intro x hx y hy
          left
          exact htns x (mem_of_getLast?Eq t x hx)
      · rw [hshape]
        cases t with
        | nil => exact absurd rfl htne
        | cons a as => simpa using htns a (by simp)
      · rw [hshape]
        rw [List.getLast?_append_of_ne_nil t (by simp)]
        have hsingle : ' ' :: joinSep [' '] (u :: us) = [' '] ++ joinSep [' '] (u :: us) := rfl
        rw [hsingle, List.getLast?_append_of_ne_nil [' '] hrest]
        exact hl

/-- C7: clean with the default separator (and either safe mode) returns a
string with no run of two consecutive whitespace characters and no leading
or trailing whitespace, for every input string; the function is a total
function of the input, so it never raises. -/
theorem clean_whitespace (s : String) (safe : Bool) :
    List.Chain' noAdjSpaces (clean s.data safe [' '])
    ∧ Option.all (fun c => !pyIsSpace c) (clean s.data safe [' ']).head? = true
    ∧ Option.all (fun c => !pyIsSpace c) (clean s.data safe [' ']).getLast? = true := by
  simp only [clean, pySplit]
  apply joinSep_good
  exact splitAux_tokens _ [] (by simp)

/-- Candidate check for the second greedy group of the title pattern
(.+) by (.+) --: position j splits r into a nonempty newline-free group
followed by the literal " --". -/
def tailCandidate (r : List Char) (j : Nat) : Bool :=
  decide (1 ≤ j) && (r.take j).all (fun c => c != '\n') && (" --".data).isPrefixOf (r.drop j)

/-- Greedy match of the suffix pattern (.+) --: the largest valid split
position, as Python's backtracking engine finds for the second group. -/
def matchTail (r : List Char) : Option Nat :=
  ((List.range (r.length + 1)).filter (fun j => tailCandidate r j)).getLast?

/-- Candidate check for the first greedy group: position i splits s into a
nonempty newline-free group, the literal " by ", and a remainder on which
the rest of the pattern matches. -/
def headCandidate (s : List Char) (i : Nat) : Bool :=
  decide (1 ≤ i) && (s.take i).all (fun c => c != '\n') &&
    (" by ".data).isPrefixOf (s.drop i) && (matchTail (s.drop (i + 4))).isSome

/-- Python re.match of NAME_UPLOADER_REGEX = (.+) by (.+) -- against the
page title text: greedy leftmost-anchored match returning the two captured
groups, none when the title does not match. -/
def reMatchTitle (s : List Char) : Option (List Char × List Char) :=
  match ((List.range (s.length + 1)).filter (fun i => headCandidate s i)).getLast? with
  | none => none
  | some i =>
    match matchTail (s.drop (i + 4)) with
    | none => none
    | some j => some (s.take i, (s.drop (i + 4)).take j)

/-- FASubmission.title: group 1 of the title pattern, returned verbatim. -/
def titleAccessor (titleText : List Char) : Option (List Char) :=
  (reMatchTitle titleText).map (fun g => g.1)

/-- FASubmission.uploader as implemented: group 2 of the title pattern,
returned verbatim (no call to clean appears in the accessor). -/
def uploader (titleText : List Char) : Option (List Char) :=
  (reMatchTitle titleText).map (fun g => g.2)

/-- The uploader accessor as the specification describes it: group 2 of the
title pattern passed through the safe normalizer. -/
def uploaderSpec (titleText : List Char) : Option (List Char) :=
  (reMatchTitle titleText).map (fun g => clean g.2 true [' '])

/-- C2 (counterexample): on the title text "A by B! --" the pattern matches
with uploader group "B!", and the implemented accessor returns "B!"
verbatim, whereas the safe normalizer would return "B"; so the accessor
does not pass the captured group through the safe normalizer. -/
theorem uploader_not_cleaned :
    uploader ("A by B! --".data) = some ("B!".data)
    ∧ uploaderSpec ("A by B! --".data) = some ("B".data)
    ∧ uploader ("A by B! --".data) ≠ uploaderSpec ("A by B! --".data) := by
  refine ⟨by decide, by decide, by decide⟩

/-- Boolean prefix test implies an append decomposition. -/
theorem isPrefixOf_exists_append : ∀ (a b : List Char), a.isPrefixOf b = true → ∃ r, b = a ++ r := by
  intro a
  induction a with
  | nil => intro b _; exact ⟨b, rfl⟩
  | cons x xs ih =>
    intro b h
    cases b with
    | nil => simp [List.isPrefixOf] at h
    | cons y ys =>
      simp only [List.isPrefixOf, Bool.and_eq_true, beq_iff_eq] at h
      obtain ⟨rfl, h2⟩ := h
      obtain ⟨r, rfl⟩ := ih ys h2
      exact ⟨r, rfl⟩

/-- C2 (amended): for every title text on which the pattern
(.+) by (.+) -- matches, the uploader accessor returns the second captured
group verbatim, without any normalization; both captured groups are
nonempty and the title decomposes as group1 ++ " by " ++ group2 ++ " --"
followed by a remainder. -/
theorem uploader_verbatim (s t u : List Char) (h : reMatchTitle s = some (t, u)) :
    uploader s = some u ∧ t ≠ [] ∧ u ≠ []
    ∧ ∃ rest, s = t ++ " by ".data ++ u ++ " --".data ++ rest := by
  have hup : uploader s = some u := by
    unfold uploader
    rw [h]
    rfl
  unfold reMatchTitle at h
  cases hfi : ((List.range (s.length + 1)).filter (fun i => headCandidate s i)).getLast? with
  | none => rw [hfi] at h; simp at h
  | some i =>
    rw [hfi] at h
    dsimp only at h
    cases hfj : matchTail (s.drop (i + 4)) with
    | none => rw [hfj] at h; simp at h
    | some j =>
      rw [hfj] at h
      simp only [Option.some.injEq, Prod.mk.injEq] at h
      obtain ⟨ht, hu⟩ := h
      have hi_mem := mem_of_getLast?Eq _ _ hfi
      rw [List.mem_filter] at hi_mem
      obtain ⟨_, hi_cand⟩ := hi_mem
      unfold headCandidate at hi_cand
      simp only [Bool.and_eq_true, decide_eq_true_eq] at hi_cand
      obtain ⟨⟨⟨hi1, _⟩, hi_by⟩, _⟩ := hi_cand
      unfold matchTail at hfj
      have hj_mem := mem_of_getLast?Eq _ _ hfj
      rw [List.mem_filter] at hj_mem
      obtain ⟨_, hj_cand⟩ := hj_mem
      unfold tailCandidate at hj_cand
      simp only [Bool.and_eq_true, decide_eq_true_eq] at hj_cand
      obtain ⟨⟨hj1, _⟩, hj_dash⟩ := hj_cand
      obtain ⟨r1, hr1⟩ := isPrefixOf_exists_append _ _ hi_by
      have hr1' : s.drop (i + 4) = r1 := by
        have h4 : (s.drop i).drop 4 = s.drop (i + 4) := List.drop_drop 4 i s
        rw [← h4, hr1]
        have : (4 : Nat) = (" by ".data).length := by decide
        rw [this, List.drop_left]
      obtain ⟨r2, hr2⟩ := isPrefixOf_exists_append _ _ hj_dash
      have hdropne : s.drop (i + 4) ≠ [] := by
        intro hnil
        rw [hnil] at hr2
        simp at hr2
      have hu_ne : u ≠ [] := by
        rw [← hu]
        intro hnil
        rw [List.take_eq_nil_iff] at hnil
        rcases hnil with h0 | hx
        · omega
        · exact hdropne hx
      have ht_ne : t ≠ [] := by
        rw [← ht]
        intro hnil
        rw [List.take_eq_nil_iff] at hnil
        rcases hnil with h0 | hx
        · omega
        · rw [hx] at hr1
          simp at hr1
      refine ⟨hup, ht_ne, hu_ne, ⟨r2, ?_⟩⟩
      have hsplit1 : s = s.take i ++ s.drop i := (List.take_append_drop i s).symm
      have hsplit2 : s.drop (i + 4) = u ++ (s.drop (i + 4)).drop j := by
        rw [← hu]
        exact (List.take_append_drop j (s.drop (i + 4))).symm
      calc s = s.take i ++ s.drop i := hsplit1
        _ = t ++ (" by ".data ++ s.drop (i + 4)) := by rw [← ht, hr1, hr1']
        _ = t ++ (" by ".data ++ (u ++ (s.drop (i + 4)).drop j)) := by rw [← hsplit2]
        _ = t ++ (" by ".data ++ (u ++ (" --".data ++ r2))) := by rw [← hr2]
        _ = t ++ " by ".data ++ u ++ " --".data ++ r2 := by simp [List.append_assoc]

/-- Witness for the amended C2 theorem at the title text "A by B --". -/
theorem uploader_verbatim_witness :
    uploader ("A by B --".data) = some ("B".data) ∧ "A".data ≠ [] ∧ "B".data ≠ []
    ∧ ∃ rest, "A by B --".data = "A".data ++ " by ".data ++ "B".data ++ " --".data ++ rest :=
  uploader_verbatim ("A by B --".data) ("A".data) ("B".data) (by decide)

/-- File contents as byte lists. -/
abbrev Bytes := List Nat

/-- The local filesystem: an association list from paths to file contents. -/
abbrev FS := List (List Char × Bytes)

/-- Look up a path (os.path.exists / reading a file). -/
def fsGet : FS → List Char → Option Bytes
  | [], _ => none
  | e :: fs, p => if e.1 = p then some e.2 else fsGet fs p

/-- Delete a path (os.remove). -/
def fsRemove : FS → List Char → FS
  | [], _ => []
  | e :: fs, p => if e.1 = p then fsRemove fs p else e :: fsRemove fs p

/-- Write a path (open(..., "wb") plus the writes, or os.rename target). -/
def fsSet (fs : FS) (p : List Char) (v : Bytes) : FS :=
  (p, v) :: fsRemove fs p

/-- Index of the last occurrence of a character, as Python str.rfind. -/
def rfindChar (l : List Char) (c : Char) : Option Nat :=
  ((List.range l.length).filter (fun i => l.get? i == some c)).getLast?

/-- os.path.splitext for POSIX paths: split off the extension at the last
dot that lies after the last slash, unless the basename up to that dot
consists only of dots. -/
def splitext (p : List Char) : List Char × List Char :=
  match rfindChar p '.' with
  | none => (p, [])
  | some d =>
    let s : Nat := match rfindChar p '/' with | none => 0 | some k => k + 1
    if decide (s ≤ d) && ((p.take d).drop s).any (fun c => c != '.') then
      (p.take d, p.drop d)
    else (p, [])

/-- os.path.basename for POSIX paths. -/
def basename (p : List Char) : List Char :=
  match rfindChar p '/' with
  | none => p
  | some k => p.drop (k + 1)

/-- The FAFile object state: the wrapped remote URL and the optional local
path cached by a successful download. -/
structure FAFile where
  url : List Char
  local_path : Option (List Char)
  deriving DecidableEq

/-- FAFile.filename: basename of the URL path. -/
def FAFile.filename (st : FAFile) : List Char := basename st.url

/-- FAFile.extension: the part after the last dot of the URL, without the
leading dot (os.path.splitext(url)[1][1:]). -/
def FAFile.extension (st : FAFile) : List Char := (splitext st.url).2.drop 1

/-- Typed errors of FAFile.download: SubmissionFileNotAccessible on
connection failure, RuntimeError for replace together with skip,
FileExistsError when the destination exists, and any propagated error from
the write phase. -/
inductive DlError
  | fileUnreachable
  | invalidArgument
  | fileAlreadyExists
  | writeFailed
  deriving DecidableEq

/-- Final destination path derived by download: destination with its
extension stripped, plus a dot and the URL extension. -/
def finalPath (st : FAFile) (destination : List Char) : List Char :=
  (splitext destination).1 ++ '.' :: st.extension

/-- Temporary sibling path used during the write. -/
def tmpPath (destination : List Char) : List Char :=
  (splitext destination).1 ++ "~PART".data

/-- The write phase of FAFile.download: write the content to the temporary
path, rename it onto the final path, and in a finally block remove the
temporary path, ignoring the OSError raised when it is already gone. When
the write fails (writeOk false, covering any OSError or streaming failure
inside the try block), the finally block still removes the temporary path,
the error propagates and local_path stays unset. -/
def downloadWrite (st : FAFile) (path_final path_tmp : List Char) (content : Bytes)
    (writeOk : Bool) (fs : FS) : Except DlError Unit × FS × FAFile :=
  if writeOk then
    let fs1 := fsSet fs path_tmp content
    let fs2 := fsSet (fsRemove fs1 path_tmp) path_final content
    let fs3 := fsRemove fs2 path_tmp
    (Except.ok (), fs3, { st with local_path := some path_final })
  else
    (Except.error DlError.writeFailed, fsRemove fs path_tmp, st)

/-- FAFile.download(destination, replace, skip). The fetch argument models
requests.get on the URL (none is a ConnectionError); writeOk models whether
the streaming write and rename succeed. Returns the outcome together with
the resulting filesystem and object state. Directory creation by
os.makedirs is assumed to succeed and is not part of the filesystem model. -/
def download (st : FAFile) (destination : List Char) (replace skip : Bool)
    (fetch : Option Bytes) (writeOk : Bool) (fs : FS) :
    Except DlError Unit × FS × FAFile :=
  match fetch with
  | none => (Except.error DlError.fileUnreachable, fs, st)
  | some content =>
    let path_final := finalPath st destination
    let path_tmp := tmpPath destination
    if (fsGet fs path_final).isSome then
      if replace && skip then (Except.error DlError.invalidArgument, fs, st)
      else if replace then downloadWrite st path_final path_tmp content writeOk fs
      else if skip then (Except.ok (), fs, st)
      else (Except.error DlError.fileAlreadyExists, fs, st)
    else downloadWrite st path_final path_tmp content writeOk fs

/-- hashlib.algorithms_available, modelled as the guaranteed algorithm set. -/
def algorithms_available : List String :=
  ["md5", "sha1", "sha224", "sha256", "sha384", "sha512",
   "sha3_224", "sha3_256", "sha3_384", "sha3_512",
   "shake_128", "shake_256", "blake2b", "blake2s"]

/-- Typed errors of FAFile.calculate_hash. -/
inductive HashError
  | unsupportedAlgorithm
  | fileUnreachable
  deriving DecidableEq

/-- The streaming branch of calculate_hash: fetch the URL and feed the
chunks to the digest without writing anything. -/
def remoteHash (st : FAFile) (fetch : Option Bytes) (fs : FS) :
    Except HashError Bytes × FS × FAFile :=
  match fetch with
  | none => (Except.error HashError.fileUnreachable, fs, st)
  | some bs => (Except.ok bs, fs, st)

/-- FAFile.calculate_hash(algorithm). The returned Bytes are the byte
stream fed to the digest (the hashlib digest itself is an external
library); the filesystem and object state are returned unchanged, as the
method performs no assignment and no write. The local file is used only
when local_path is set to a non-empty (truthy) path that exists on disk. -/
def calculate_hash (st : FAFile) (algorithm : String) (fetch : Option Bytes) (fs : FS) :
    Except HashError Bytes × FS × FAFile :=
  if algorithm ∈ algorithms_available then
    match st.local_path with
    | some p =>
      if p.isEmpty then remoteHash st fetch fs
      else
        match fsGet fs p with
        | some bytes => (Except.ok bytes, fs, st)
        | none => remoteHash st fetch fs
    | none => remoteHash st fetch fs
  else (Except.error HashError.unsupportedAlgorithm, fs, st)

/-- Reading after removing: the removed path is gone, others unchanged. -/
theorem fsGet_fsRemove (fs : FS) (p q : List Char) :
    fsGet (fsRemove fs p) q = if q = p then none else fsGet fs q := by
  induction fs with
  | nil => simp [fsGet, fsRemove]
  | cons e fs ih =>
    simp only [fsGet, fsRemove]
    by_cases hep : e.1 = p <;> by_cases heq : e.1 = q <;> by_cases hqp : q = p <;>
      simp_all [fsGet]

/-- Reading after writing: the written path holds the new contents, others
unchanged. -/
theorem fsGet_fsSet (fs : FS) (p q : List Char) (v : Bytes) :
    fsGet (fsSet fs p v) q = if q = p then some v else fsGet fs q := by
  simp only [fsSet, fsGet]
  by_cases hqp : q = p
  · simp [hqp]
  · simp [hqp, fsGet_fsRemove, Ne.symm hqp]

/-- The derived final path and the temporary sibling path never coincide. -/
theorem finalPath_ne_tmpPath (st : FAFile) (d : List Char) :
    finalPath st d ≠ tmpPath d := by
  unfold finalPath tmpPath
  intro h
  have h2 : ('.' :: st.extension) = ('~' :: "PART".data) := List.append_cancel_left h
  simp at h2

/-- C3: for every download call whose derived final path already exists and
whose fetch succeeds, replace together with skip raises the invalid-argument
programmer error, skip alone returns without touching the filesystem or the
object, replace alone overwrites the final path with the fetched content,
and neither flag raises FileAlreadyExists. -/
theorem download_existing_flags (st : FAFile) (dest : List Char) (content : Bytes)
    (w : Bool) (fs : FS) (hex : (fsGet fs (finalPath st dest)).isSome = true) :
    download st dest true true (some content) w fs
        = (Except.error DlError.invalidArgument, fs, st)
    ∧ download st dest false true (some content) w fs = (Except.ok (), fs, st)
    ∧ fsGet (download st dest true false (some content) true fs).2.1 (finalPath st dest)
        = some content
    ∧ download st dest false false (some content) w fs
        = (Except.error DlError.fileAlreadyExists, fs, st) := by
  refine ⟨?_, ?_, ?_, ?_⟩
  · simp [download, hex]
  · simp [download, hex]
  · simp [download, hex, downloadWrite, fsGet_fsRemove, fsGet_fsSet,
      finalPath_ne_tmpPath st dest]
  · simp [download, hex]

/-- Witness for the C3 theorem: a URL with extension png, destination
"d/out" and a filesystem that already holds "d/out.png". -/
theorem download_existing_flags_witness :
    download ⟨"http://x/a.png".data, none⟩ ("d/out".data) true true (some [9]) false
        [(("d/out.png".data), [1, 2])]
      = (Except.error DlError.invalidArgument, [(("d/out.png".data), [1, 2])],
          ⟨"http://x/a.png".data, none⟩)
    ∧ download ⟨"http://x/a.png".data, none⟩ ("d/out".data) false true (some [9]) false
        [(("d/out.png".data), [1, 2])]
      = (Except.ok (), [(("d/out.png".data), [1, 2])], ⟨"http://x/a.png".data, none⟩)
    ∧ fsGet (download ⟨"http://x/a.png".data, none⟩ ("d/out".data) true false (some [9]) true
        [(("d/out.png".data), [1, 2])]).2.1
        (finalPath ⟨"http://x/a.png".data, none⟩ ("d/out".data)) = some [9]
    ∧ download ⟨"http://x/a.png".data, none⟩ ("d/out".data) false false (some [9]) false
        [(("d/out.png".data), [1, 2])]
      = (Except.error DlError.fileAlreadyExists, [(("d/out.png".data), [1, 2])],
          ⟨"http://x/a.png".data, none⟩) :=
  download_existing_flags ⟨"http://x/a.png".data, none⟩ ("d/out".data) [9] false
    [(("d/out.png".data), [1, 2])] (by decide)

/-- A download that either finds no existing final path or is called with
replace (and not skip) proceeds to the write phase. -/
theorem download_reaches_write (st : FAFile) (dest : List Char) (replace skip : Bool)
    (content : Bytes) (w : Bool) (fs : FS)
    (hreach : (fsGet fs (finalPath st dest)).isSome = false
      ∨ (replace = true ∧ skip = false)) :
    download st dest replace skip (some content) w fs
      = downloadWrite st (finalPath st dest) (tmpPath dest) content w fs := by
  rcases hreach with hne | ⟨hr, hs⟩
  · simp [download, hne]
  · subst hr
    subst hs
    by_cases hex : (fsGet fs (finalPath st dest)).isSome = true <;> simp [download, hex]

/-- The derived final path is never the empty (falsy) path. -/
theorem finalPath_not_empty (st : FAFile) (d : List Char) :
    (finalPath st d).isEmpty = false := by
  simp [finalPath, List.isEmpty_iff]

/-- C4: every download call that reaches the write phase writes the content
to the temporary sibling path and renames it onto the final path: on
success the final path holds the fetched content, the temporary path is
gone, all other paths are untouched, and the final path is remembered in
local_path so that a later calculate_hash reads the downloaded file rather
than re-fetching (it succeeds even when the network is down); on a failure
during the write, the temporary file is removed, all other paths are
untouched, the error propagates and the object state is unchanged. -/
theorem download_write_phase (st : FAFile) (dest : List Char) (replace skip : Bool)
    (content : Bytes) (fs : FS)
    (hreach : (fsGet fs (finalPath st dest)).isSome = false
      ∨ (replace = true ∧ skip = false)) :
    ((download st dest replace skip (some content) true fs).1 = Except.ok ()
      ∧ fsGet (download st dest replace skip (some content) true fs).2.1 (finalPath st dest)
          = some content
      ∧ fsGet (download st dest replace skip (some content) true fs).2.1 (tmpPath dest) = none
      ∧ (∀ q, q ≠ finalPath st dest → q ≠ tmpPath dest →
          fsGet (download st dest replace skip (some content) true fs).2.1 q = fsGet fs q)
      ∧ (download st dest replace skip (some content) true fs).2.2.local_path
          = some (finalPath st dest)
      ∧ (∀ fetch2, (calculate_hash (download st dest replace skip (some content) true fs).2.2
            "sha256" fetch2 (download st dest replace skip (some content) true fs).2.1).1
          = Except.ok content))
    ∧ ((download st dest replace skip (some content) false fs).1
          = Except.error DlError.writeFailed
      ∧ fsGet (download st dest replace skip (some content) false fs).2.1 (tmpPath dest) = none
      ∧ (∀ q, q ≠ tmpPath dest →
          fsGet (download st dest replace skip (some content) false fs).2.1 q = fsGet fs q)
      ∧ (download st dest replace skip (some content) false fs).2.2 = st) := by
  rw [download_reaches_write st dest replace skip content true fs hreach]
  rw [download_reaches_write st dest replace skip content false fs hreach]
  refine ⟨⟨?_, ?_, ?_, ?_, ?_, ?_⟩, ?_, ?_, ?_, ?_⟩
  · simp [downloadWrite]
  · simp [downloadWrite, fsGet_fsRemove, fsGet_fsSet, finalPath_ne_tmpPath st dest]
  · simp [downloadWrite, fsGet_fsRemove, fsGet_fsSet]
  · intro q hqf hqt
    simp [downloadWrite, fsGet_fsRemove, fsGet_fsSet, hqf, hqt]
  · simp [downloadWrite]
  · intro fetch2
    simp [downloadWrite, calculate_hash, algorithms_available, finalPath_not_empty st dest,
      fsGet_fsRemove, fsGet_fsSet, finalPath_ne_tmpPath st dest]
  · simp [downloadWrite]
  · simp [downloadWrite, fsGet_fsRemove]
  · intro q hqt
    simp [downloadWrite, fsGet_fsRemove, hqt]
  · simp [downloadWrite]

/-- Witness for the C4 theorem: empty filesystem, URL with extension png,
destination "d/out". -/
theorem download_write_phase_witness :
    ((download ⟨"http://x/a.png".data, none⟩ ("d/out".data) false false (some [7]) true []).1
        = Except.ok ()
      ∧ fsGet (download ⟨"http://x/a.png".data, none⟩ ("d/out".data) false false (some [7])
            true []).2.1 (finalPath ⟨"http://x/a.png".data, none⟩ ("d/out".data)) = some [7]
      ∧ fsGet (download ⟨"http://x/a.png".data, none⟩ ("d/out".data) false false (some [7])
            true []).2.1 (tmpPath ("d/out".data)) = none
      ∧ (∀ q, q ≠ finalPath ⟨"http://x/a.png".data, none⟩ ("d/out".data) →
          q ≠ tmpPath ("d/out".data) →
          fsGet (download ⟨"http://x/a.png".data, none⟩ ("d/out".data) false false (some [7])
            true []).2.1 q = fsGet [] q)
      ∧ (download ⟨"http://x/a.png".data, none⟩ ("d/out".data) false false (some [7])
            true []).2.2.local_path
          = some (finalPath ⟨"http://x/a.png".data, none⟩ ("d/out".data))
      ∧ (∀ fetch2, (calculate_hash (download ⟨"http://x/a.png".data, none⟩ ("d/out".data)
            false false (some [7]) true []).2.2 "sha256" fetch2
            (download ⟨"http://x/a.png".data, none⟩ ("d/out".data) false false (some [7])
              true []).2.1).1 = Except.ok [7]))
    ∧ ((download ⟨"http://x/a.png".data, none⟩ ("d/out".data) false false (some [7])
          false []).1 = Except.error DlError.writeFailed
      ∧ fsGet (download ⟨"http://x/a.png".data, none⟩ ("d/out".data) false false (some [7])
            false []).2.1 (tmpPath ("d/out".data)) = none
      ∧ (∀ q, q ≠ tmpPath ("d/out".data) →
          fsGet (download ⟨"http://x/a.png".data, none⟩ ("d/out".data) false false (some [7])
            false []).2.1 q = fsGet [] q)
      ∧ (download ⟨"http://x/a.png".data, none⟩ ("d/out".data) false false (some [7])
            false []).2.2 = ⟨"http://x/a.png".data, none⟩) :=
  download_write_phase ⟨"http://x/a.png".data, none⟩ ("d/out".data) false false [7] []
    (Or.inl (by decide))

/-- The truthiness condition under which calculate_hash reads the cached
local file: local_path set to a non-empty path that exists on disk. -/
def localUsable (st : FAFile) (fs : FS) : Bool :=
  match st.local_path with
  | some p => !p.isEmpty && (fsGet fs p).isSome
  | none => false

/-- calculate_hash leaves the filesystem and the object state unchanged. -/
theorem calculate_hash_frame (st : FAFile) (alg : String) (fetch : Option Bytes) (fs : FS) :
    (calculate_hash st alg fetch fs).2.1 = fs ∧ (calculate_hash st alg fetch fs).2.2 = st := by
  unfold calculate_hash remoteHash
  by_cases halg : alg ∈ algorithms_available
  · simp only [halg, if_true]
    rcases hlp : st.local_path with _ | p
    · cases fetch <;> simp
    · simp only []
      by_cases hemp : p.isEmpty
      · simp only [hemp, if_true]
        cases fetch <;> simp
      · simp only [hemp, if_false]
        rcases hg : fsGet fs p with _ | bytes
        · cases fetch <;> simp
        · simp
  · simp [halg]

/-- C5: calculate_hash fails with the unsupported-algorithm error exactly
when the algorithm name is not recognized; with a recognized algorithm, a
cached non-empty local path whose file is present on disk makes the digest
read that file's bytes; otherwise the remote URL is streamed directly into
the digest (failing with FileUnreachable on connection failure); and in
every case the filesystem and the FAFile are left unchanged, so nothing is
persisted. -/
theorem calculate_hash_spec (st : FAFile) (alg : String) (fetch : Option Bytes) (fs : FS) :
    ((calculate_hash st alg fetch fs).1 = Except.error HashError.unsupportedAlgorithm
        ↔ alg ∉ algorithms_available)
    ∧ (∀ p bytes, alg ∈ algorithms_available → st.local_path = some p → p ≠ [] →
        fsGet fs p = some bytes → (calculate_hash st alg fetch fs).1 = Except.ok bytes)
    ∧ (alg ∈ algorithms_available → localUsable st fs = false → fetch = none →
        (calculate_hash st alg fetch fs).1 = Except.error HashError.fileUnreachable)
    ∧ (∀ bs, alg ∈ algorithms_available → localUsable st fs = false → fetch = some bs →
        (calculate_hash st alg fetch fs).1 = Except.ok bs)
    ∧ (calculate_hash st alg fetch fs).2.1 = fs
    ∧ (calculate_hash st alg fetch fs).2.2 = st := by
  obtain ⟨hf1, hf2⟩ := calculate_hash_frame st alg fetch fs
  refine ⟨?_, ?_, ?_, ?_, hf1, hf2⟩
  · by_cases halg : alg ∈ algorithms_available
    · simp only [halg, not_true, iff_false]
      unfold calculate_hash remoteHash
      simp only [halg, if_true]
      rcases hlp : st.local_path with _ | p
      · cases fetch <;> simp
      · simp only []
        by_cases hemp : p.isEmpty
        · simp only [hemp, if_true]
          cases fetch <;> simp
        · simp only [hemp, if_false]
          rcases hg : fsGet fs p with _ | bytes
          · cases fetch <;> simp
          · simp
    · simp [calculate_hash, halg]
  · intro p bytes halg hlp hpne hget
    have hemp : p.isEmpty = false := by
      simp [List.isEmpty_iff, hpne]
    simp [calculate_hash, halg, hlp, hemp, hget]
  · intro halg hlu hfetch
    subst hfetch
    unfold calculate_hash remoteHash
    simp only [halg, if_true]
    unfold localUsable at hlu
    rcases hlp : st.local_path with _ | p
    · simp
    · simp only [hlp] at hlu
      by_cases hemp : p.isEmpty
      · simp [hemp]
      · simp only [hemp, Bool.not_false, Bool.true_and] at hlu
        rcases hg : fsGet fs p with _ | bytes
        · simp [hemp, hg]
        · rw [hg] at hlu
          simp at hlu
  · intro bs halg hlu hfetch
    subst hfetch
    unfold calculate_hash remoteHash
    simp only [halg, if_true]
    unfold localUsable at hlu
    rcases hlp : st.local_path with _ | p
    · simp
    · simp only [hlp] at hlu
      by_cases hemp : p.isEmpty
      · simp [hemp]
      · simp only [hemp, Bool.not_false, Bool.true_and] at hlu
        rcases hg : fsGet fs p with _ | bytes
        · simp [hemp, hg]
        · rw [hg] at hlu
          simp at hlu

/-- Witness for the C5 theorem: recognized algorithm, cached path "p"
present on disk with bytes [3]; the digest reads those bytes. -/
theorem calculate_hash_spec_witness :
    (calculate_hash ⟨"http://x/a.png".data, some ("p".data)⟩ "sha256" none
        [(("p".data), [3])]).1 = Except.ok [3] :=
  (calculate_hash_spec ⟨"http://x/a.png".data, some ("p".data)⟩ "sha256" none
      [(("p".data), [3])]).2.1 ("p".data) [3] (by decide) rfl (by decide) (by decide)

/-- Operations available on a FAFile object. -/
inductive FAOp
  | dl (destination : List Char) (replace skip : Bool) (fetch : Option Bytes) (writeOk : Bool)
  | hash (algorithm : String) (fetch : Option Bytes)

/-- Run one operation on a filesystem and object state. -/
def runOp (s : FS × FAFile) (op : FAOp) : FS × FAFile :=
  match op with
  | FAOp.dl dest r k f w => (download s.2 dest r k f w s.1).2
  | FAOp.hash alg f => (calculate_hash s.2 alg f s.1).2

/-- Run a sequence of download and calculate_hash operations. -/
def runOps (s : FS × FAFile) (ops : List FAOp) : FS × FAFile :=
  List.foldl runOp s ops

/-- download never changes the stored URL. -/
theorem download_preserves_url (st : FAFile) (dest : List Char) (r k : Bool)
    (f : Option Bytes) (w : Bool) (fs : FS) :
    (download st dest r k f w fs).2.2.url = st.url := by
  unfold download downloadWrite
  rcases f with _ | content
  · simp
  · simp only []
    by_cases hex : (fsGet fs (finalPath st dest)).isSome <;>
      by_cases hr : r <;> by_cases hk : k <;> by_cases hw : w <;>
        simp [hex, hr, hk, hw]

/-- A single operation never changes the stored URL. -/
theorem runOp_url (s : FS × FAFile) (op : FAOp) : (runOp s op).2.url = s.2.url := by
  cases op with
  | dl dest r k f w => exact download_preserves_url s.2 dest r k f w s.1
  | hash alg f =>
    show (calculate_hash s.2 alg f s.1).2.2.url = s.2.url
    rw [(calculate_hash_frame s.2 alg f s.1).2]

/-- No sequence of operations changes the stored URL. -/
theorem runOps_url : ∀ (ops : List FAOp) (s : FS × FAFile),
    (runOps s ops).2.url = s.2.url := by
  intro ops
  induction ops with
  | nil => intro s; rfl
  | cons op ops ih =>
    intro s
    show (runOps (runOp s op) ops).2.url = s.2.url
    rw [ih (runOp s op), runOp_url s op]

/-- Any download call either leaves the cached local path unchanged or
succeeds and sets it to the derived final path. -/
theorem download_sets_local_path (st : FAFile) (dest : List Char) (r k : Bool)
    (f : Option Bytes) (w : Bool) (fs : FS) :
    (download st dest r k f w fs).2.2.local_path = st.local_path
    ∨ ((download st dest r k f w fs).1 = Except.ok ()
        ∧ (download st dest r k f w fs).2.2.local_path = some (finalPath st dest)) := by
  unfold download downloadWrite
  rcases f with _ | content
  · left
    rfl
  · simp only []
    by_cases hex : (fsGet fs (finalPath st dest)).isSome <;>
      by_cases hr : r <;> by_cases hk : k <;> by_cases hw : w <;>
        simp [hex, hr, hk, hw]

/-- C10: no sequence of download and calculate_hash operations mutates the
stored URL, so the url, filename and extension accessors return the same
values before and after; moreover calculate_hash never modifies the cached
local path, and a download either leaves it unchanged or succeeds and sets
it (only a successful download sets it). -/
theorem fafile_frame (ops : List FAOp) (fs : FS) (st : FAFile) :
    (runOps (fs, st) ops).2.url = st.url
    ∧ FAFile.filename (runOps (fs, st) ops).2 = FAFile.filename st
    ∧ FAFile.extension (runOps (fs, st) ops).2 = FAFile.extension st
    ∧ (∀ (st2 : FAFile) (alg : String) (fetch : Option Bytes) (fs2 : FS),
        (calculate_hash st2 alg fetch fs2).2.2.local_path = st2.local_path)
    ∧ (∀ (st2 : FAFile) (dest : List Char) (r k : Bool) (f : Option Bytes) (w : Bool)
        (fs2 : FS),
        (download st2 dest r k f w fs2).2.2.local_path = st2.local_path
        ∨ ((download st2 dest r k f w fs2).1 = Except.ok ()
            ∧ (download st2 dest r k f w fs2).2.2.local_path
                = some (finalPath st2 dest))) := by
  have hu : (runOps (fs, st) ops).2.url = st.url := runOps_url ops (fs, st)
  refine ⟨hu, ?_, ?_, ?_, ?_⟩
  · unfold FAFile.filename
    rw [hu]
  · unfold FAFile.extension
    rw [hu]
  · intro st2 alg fetch fs2
    rw [(calculate_hash_frame st2 alg fetch fs2).2]
  · intro st2 dest r k f w fs2
    exact download_sets_local_path st2 dest r k f w fs2

/-- Modelled from the spec: the record-returning FASubmission.comments
accessor is not present in src (the submission.py snapshot there only has
the older comment-count property; the FAComment record class in misc.py and
the tests target the newer accessor). A comment-container element provides
its element id, the inline indentation style value, the nested author
element's text and the nested body element's full text. -/
structure CommentContainer where
  elemId : List Char
  styleValue : Int
  authorText : List Char
  bodyText : List Char
  deriving DecidableEq

/-- The FAComment record from misc.py: id, depth, author, text; equality is
structural. -/
structure FAComment where
  id : List Char
  depth : Nat
  author : List Char
  text : List Char
  deriving DecidableEq

/-- Modelled from the spec: length of the fixed marker that the comments
accessor strips from a container's element id. -/
def commentIdMarkerLen : Nat := 4

/-- Modelled from the spec: depth is derived from the inline indentation
style value as abs(style_value - 100) / 3 by integer division. -/
def commentDepth (styleValue : Int) : Nat := (styleValue - 100).natAbs / 3

/-- Modelled from the spec: the record extracted from one comment-container
element. -/
def extractComment (c : CommentContainer) : FAComment :=
  { id := c.elemId.drop commentIdMarkerLen
  , depth := commentDepth c.styleValue
  , author := clean c.authorText false [' ']
  , text := clean c.bodyText false [' '] }

/-- Modelled from the spec: the comments accessor maps every
comment-container element of the page, in document order, to its record. -/
def commentsAccessor (containers : List CommentContainer) : List FAComment :=
  containers.map extractComment

/-- C6: the comments accessor returns one record per comment-container
element in document order; the record at position i comes from the
container at position i and has id equal to the element id with the fixed
marker stripped, depth equal to abs(style_value - 100) / 3 by integer
division, author the normalized author text and text the normalized body
text. -/
theorem comments_accessor_spec (containers : List CommentContainer) :
    (commentsAccessor containers).length = containers.length
    ∧ ∀ (i : Nat) (c : CommentContainer), containers[i]? = some c →
        (commentsAccessor containers)[i]? = some
          { id := c.elemId.drop commentIdMarkerLen
          , depth := (c.styleValue - 100).natAbs / 3
          , author := clean c.authorText false [' ']
          , text := clean c.bodyText false [' '] } := by
  refine ⟨by simp [commentsAccessor], ?_⟩
  intro i c hc
  rw [commentsAccessor, List.getElem?_map, hc]
  rfl

/-- Witness for the C6 theorem, at the sample page of the test fixture: the
second container (element id "cid:00000002", style value 103, author
"Fakeartist", body " Thank you! ") yields the record with id "00000002",
depth 1, author "Fakeartist" and text "Thank you!". -/
theorem comments_accessor_spec_witness :
    (commentsAccessor
        [⟨"cid:00000001".data, 100, "foobar".data,
            " This submission was very acceptable. ".data⟩,
          ⟨"cid:00000002".data, 103, "Fakeartist".data, " Thank you! ".data⟩])[1]?
      = some
        { id := ("cid:00000002".data).drop commentIdMarkerLen
        , depth := ((103 : Int) - 100).natAbs / 3
        , author := clean ("Fakeartist".data) false [' ']
        , text := clean (" Thank you! ".data) false [' '] } :=
  (comments_accessor_spec
      [⟨"cid:00000001".data, 100, "foobar".data,
          " This submission was very acceptable. ".data⟩,
        ⟨"cid:00000002".data, 103, "Fakeartist".data, " Thank you! ".data⟩]).2 1
    ⟨"cid:00000002".data, 103, "Fakeartist".data, " Thank you! ".data⟩ (by decide)

/-- Error raised by operations that require a logged-in session. -/
inductive WatchError
  | notLoggedIn
  deriving DecidableEq

/-- One step of the watchlist accumulation: append the username when it has
not been seen, keep the accumulator otherwise (first-seen-order dedup). -/
def watchStep (acc : List String) (u : String) : List String :=
  if u ∈ acc then acc else acc ++ [u]

/-- The inner loop of get_watchlist over the stream of extracted usernames:
a username not yet seen is appended; the first repeated username ends the
loop, returning the accumulated list. An exhausted stream prefix returns
none, modelling that the real loop would keep paginating forever. -/
def watchLoop : List String → List String → Option (List String)
  | [], _ => none
  | u :: rest, acc => if u ∈ acc then some acc else watchLoop rest (acc ++ [u])

/-- FurAffinity.get_watchlist: requires the logged-in state, then walks the
buddylist pages (given here as the per-page lists of extracted usernames)
accumulating first-seen usernames until one repeats. -/
def get_watchlist (loggedIn : Bool) (pages : List (List String)) :
    Except WatchError (Option (List String)) :=
  if loggedIn then Except.ok (watchLoop pages.flatten []) else Except.error WatchError.notLoggedIn

/-- Invariant of the watchlist loop: starting from a duplicate-free
accumulator, a completed loop returns a duplicate-free list equal to the
first-seen fold of the consumed stream prefix, and the next stream element
is the repeat that ended the loop. -/
theorem watchLoop_spec : ∀ (l acc users : List String), acc.Nodup →
    watchLoop l acc = some users →
    users.Nodup ∧ ∃ k u, l[k]? = some u ∧ u ∈ users
      ∧ users = List.foldl watchStep acc (l.take k) := by
  intro l
  induction l with
  | nil =>
    intro acc users _ h
    simp [watchLoop] at h
  | cons v rest ih =>
    intro acc users hnd h
    rw [watchLoop] at h
    by_cases hv : v ∈ acc
    · rw [if_pos hv] at h
      simp only [Option.some.injEq] at h
      subst h
      exact ⟨hnd, 0, v, by simp, hv, by simp⟩
    · rw [if_neg hv] at h
      have hnd2 : (acc ++ [v]).Nodup := by
        simp [List.nodup_append, hnd, hv]
      obtain ⟨hndu, k, u, hk, hu, heq⟩ := ih (acc ++ [v]) users hnd2 h
      refine ⟨hndu, k + 1, u, by simpa using hk, hu, ?_⟩
      rw [heq]
      simp [watchStep, hv]

/-- C8: get_watchlist raises the not-authenticated error when the client is
not logged in; when logged in and the loop completes with a result, the
returned usernames contain no duplicates, are the first-seen-order
accumulation of the username stream up to some position, and the next
username at that position is one already seen (the repeat that ends the
pagination). -/
theorem get_watchlist_spec (pages : List (List String)) :
    get_watchlist false pages = Except.error WatchError.notLoggedIn
    ∧ ∀ users, get_watchlist true pages = Except.ok (some users) →
        users.Nodup
        ∧ ∃ k u, (pages.flatten)[k]? = some u ∧ u ∈ users
          ∧ users = List.foldl watchStep [] ((pages.flatten).take k) := by
  refine ⟨rfl, ?_⟩
  intro users h
  simp only [get_watchlist, if_true, Except.ok.injEq] at h
  exact watchLoop_spec pages.flatten [] users List.nodup_nil h

/-- Witness for the C8 theorem: pages [["a","b"],["a"]] end with the repeat
of "a" and return ["a","b"]. -/
theorem get_watchlist_spec_witness :
    (["a", "b"] : List String).Nodup
    ∧ ∃ k u, ([["a", "b"], ["a"]].flatten : List String)[k]? = some u ∧ u ∈ ["a", "b"]
      ∧ ["a", "b"] = List.foldl watchStep [] (([["a", "b"], ["a"]].flatten).take k) :=
  (get_watchlist_spec [["a", "b"], ["a"]]).2 ["a", "b"] rfl

/-- The nine boolean form flags of FurAffinity.search. A value of
some "on" means the field is sent as "on"; none models the Python None
value, which requests omits from the posted form entirely. -/
structure SearchFlags where
  ratingGeneral : Option String
  ratingMature : Option String
  ratingAdult : Option String
  typeArt : Option String
  typeFlash : Option String
  typePhoto : Option String
  typeMusic : Option String
  typeStory : Option String
  typePoetry : Option String
  deriving DecidableEq

/-- Python's idiom x and "on" or None over an int flag: "on" when the flag
is truthy, None otherwise. -/
def pyFlag (n : Nat) : Option String := if n ≠ 0 then some ("on") else none

/-- The flag part of the form built by FurAffinity.search: ratings defaults
to [1, 1, 1] when omitted, types defaults to [1, 0, 1, 0, 0, 0] when
omitted, and each entry becomes "on" or an omitted field. -/
def searchFlags (ratings0 : Option (List Nat)) (types0 : Option (List Nat)) : SearchFlags :=
  let ratings := match ratings0 with | none => [1, 1, 1] | some r => r
  let types := match types0 with | none => [1, 0, 1, 0, 0, 0] | some t => t
  { ratingGeneral := pyFlag (ratings.getD 0 0)
  , ratingMature := pyFlag (ratings.getD 1 0)
  , ratingAdult := pyFlag (ratings.getD 2 0)
  , typeArt := pyFlag (types.getD 0 0)
  , typeFlash := pyFlag (types.getD 1 0)
  , typePhoto := pyFlag (types.getD 2 0)
  , typeMusic := pyFlag (types.getD 3 0)
  , typeStory := pyFlag (types.getD 4 0)
  , typePoetry := pyFlag (types.getD 5 0) }

/-- C9: with ratings omitted the form enables all three rating flags, and
with types omitted it enables only the art and photo type flags, leaving
flash, music, story and poetry absent from the posted form, so default
searches silently exclude those four submission types. -/
theorem search_default_flags :
    searchFlags none none =
      { ratingGeneral := some ("on")
      , ratingMature := some ("on")
      , ratingAdult := some ("on")
      , typeArt := some ("on")
      , typeFlash := none
      , typePhoto := some ("on")
      , typeMusic := none
      , typeStory := none
      , typePoetry := none } := by
  decide
